import Mathlib

/-!
Shallow embedding of the Olive node-graph editor sample
(`nodeviewitem.cpp`, `nodeviewscene.cpp`, `colorspacechooser.cpp`).

Coordinates are modelled as exact rationals (`ℚ`); the font-metric
derived item sizes are parameters of the functions that use them,
since `QFontMetrics` is toolkit state.  Qt container operations are
modelled on Lean lists (`removeOne` is `List.erase`, `QHash`
iteration is list order).
-/

namespace Olive

/-- `NodeViewCommon::FlowDirection` from nodeviewcommon.h. -/
inductive FlowDirection where
  | kLeftToRight
  | kRightToLeft
  | kTopToBottom
  | kBottomToTop
deriving DecidableEq

/-- `QPointF` with exact rational coordinates. -/
@[ext]
structure QPointF where
  x : ℚ
  y : ℚ
deriving DecidableEq

/-- `NodeViewItem::NodeToScreenPoint` (nodeviewitem.cpp:106-131).
`hp`/`vp` are `DefaultItemHorizontalPadding`/`DefaultItemVerticalPadding`
as functions of the flow direction; their numeric values come from
`QFontMetrics` in the source, so they are parameters here. -/
def NodeToScreenPoint (hp vp : FlowDirection → ℚ) (direction : FlowDirection)
    (p : QPointF) : QPointF :=
  let p : QPointF :=
    match direction with
    | .kLeftToRight => p
    | .kRightToLeft => { p with x := -p.x }
    | .kTopToBottom => ⟨p.y, p.x⟩
    | .kBottomToTop => ⟨p.y, -p.x⟩
  -- Multiply by item sizes for this direction
  ⟨p.x * hp direction, p.y * vp direction⟩

/-- `NodeViewItem::ScreenToNodePoint` (nodeviewitem.cpp:133-158). -/
def ScreenToNodePoint (hp vp : FlowDirection → ℚ) (direction : FlowDirection)
    (p : QPointF) : QPointF :=
  -- Divide by item sizes for this direction
  let p : QPointF := ⟨p.x / hp direction, p.y / vp direction⟩
  match direction with
  | .kLeftToRight => p
  | .kRightToLeft => { p with x := -p.x }
  | .kTopToBottom => ⟨p.y, p.x⟩
  | .kBottomToTop => ⟨-p.y, p.x⟩

/-- Self-contained, toolkit-free reference definition of the
node-to-screen transform: one closed linear form per direction. -/
def nodeToScreenPointRef (hp vp : FlowDirection → ℚ) (direction : FlowDirection)
    (p : QPointF) : QPointF :=
  match direction with
  | .kLeftToRight => ⟨p.x * hp .kLeftToRight, p.y * vp .kLeftToRight⟩
  | .kRightToLeft => ⟨-p.x * hp .kRightToLeft, p.y * vp .kRightToLeft⟩
  | .kTopToBottom => ⟨p.y * hp .kTopToBottom, p.x * vp .kTopToBottom⟩
  | .kBottomToTop => ⟨p.y * hp .kBottomToTop, -p.x * vp .kBottomToTop⟩

/-- Self-contained, toolkit-free reference definition of the
screen-to-node transform: one closed linear form per direction. -/
def screenToNodePointRef (hp vp : FlowDirection → ℚ) (direction : FlowDirection)
    (p : QPointF) : QPointF :=
  match direction with
  | .kLeftToRight => ⟨p.x / hp .kLeftToRight, p.y / vp .kLeftToRight⟩
  | .kRightToLeft => ⟨-(p.x / hp .kRightToLeft), p.y / vp .kRightToLeft⟩
  | .kTopToBottom => ⟨p.y / vp .kTopToBottom, p.x / hp .kTopToBottom⟩
  | .kBottomToTop => ⟨-(p.y / vp .kBottomToTop), p.x / hp .kBottomToTop⟩

/-- The dependency graph a `NodeViewScene` works over: `deps` is
`Node::GetImmediateDependencies`, `routes` is `Node::GetNumberOfRoutesTo`.
The field `wf` states the graph is acyclic, presented by a topological
numbering (each dependency has a smaller index); the C++ recursion
terminates exactly on such graphs. -/
structure NodeGraph where
  deps : ℕ → List ℕ
  routes : ℕ → ℕ → ℕ
  wf : ∀ n m, m ∈ deps n → m < n

/-- `NodeViewScene::DetermineWeight` (nodeviewscene.cpp:197-210): the
loop accumulates, over the immediate dependencies reached by exactly
one route, the recursive weight, and the result is clamped to at
least 1 (`qMax(1, weight)`).  C++ `int` is modelled as `ℤ`. -/
def DetermineWeight (g : NodeGraph) (n : ℕ) : ℤ :=
  max 1 ((g.deps n).attach.foldl
    (fun weight i => if g.routes i.1 n = 1 then weight + DetermineWeight g i.1 else weight) 0)
termination_by n
decreasing_by exact g.wf n i.1 i.2

/-- Self-contained reference definition of the layout weight: the sum,
over single-route immediate dependencies, of their weights, clamped
to at least 1. -/
def determineWeightRef (g : NodeGraph) (n : ℕ) : ℤ :=
  max 1 ((((g.deps n).filter fun m => decide (g.routes m n = 1)).attach.map
    fun m => determineWeightRef g m.1).sum)
termination_by n
decreasing_by exact g.wf n m.1 (List.mem_of_mem_filter m.2)

/-! ### Scene selection state (nodeviewscene.cpp:71-144)

Graphics items are identified by natural numbers.  The scene holds its
item list (`QGraphicsScene::items()`), the per-item selection flag
(`QGraphicsItem::isSelected`, mutated by `setSelected`), the
`item_map_` hash from nodes to their `NodeViewItem`s (nodes are also
naturals), and the `edges_` list of edge items. -/

/-- Selection-related state of a `NodeViewScene`. -/
structure SelScene where
  items : List ℕ
  sel : ℕ → Bool
  itemMap : List (ℕ × ℕ)
  edges : List ℕ

/-- A `foreach` loop calling `setSelected(b)` on each item of `l` in
turn. -/
def setSelectedAll (l : List ℕ) (b : Bool) (sel : ℕ → Bool) : ℕ → Bool :=
  match l with
  | [] => sel
  | i :: rest => setSelectedAll rest b fun j => if j = i then b else sel j

/-- `QGraphicsScene::selectedItems()`: the scene items whose selection
flag is set. -/
def selectedItems (s : SelScene) : List ℕ :=
  s.items.filter s.sel

/-- `NodeViewScene::SelectAll` (nodeviewscene.cpp:71-78): sets every
item of `items()` selected. -/
def SelectAll (s : SelScene) : SelScene :=
  { s with sel := setSelectedAll s.items true s.sel }

/-- `NodeViewScene::DeselectAll` (nodeviewscene.cpp:80-87): clears the
selection flag of every item of `selectedItems()`. -/
def DeselectAll (s : SelScene) : SelScene :=
  { s with sel := setSelectedAll (selectedItems s) false s.sel }

/-- `NodeViewScene::GetSelectedNodes` (nodeviewscene.cpp:105-117):
keys of `item_map_` whose item is selected. -/
def GetSelectedNodes (s : SelScene) : List ℕ :=
  (s.itemMap.filter fun p => s.sel p.2).map Prod.fst

/-- `NodeViewScene::GetSelectedItems` (nodeviewscene.cpp:119-131):
values of `item_map_` that are selected. -/
def GetSelectedItems (s : SelScene) : List ℕ :=
  (s.itemMap.filter fun p => s.sel p.2).map Prod.snd

/-- `NodeViewScene::GetSelectedEdges` (nodeviewscene.cpp:133-144):
edges of `edges_` that are selected. -/
def GetSelectedEdges (s : SelScene) : List ℕ :=
  s.edges.filter s.sel

/-! ### Scene edge registration (nodeviewscene.cpp:94-103, 146-166, 212-226)

Edges are identified by natural numbers allocated by `nextId` (edge
object identity).  `rec` gives each edge object's immutable data:
its `output()` node, its `input()` (a `NodeInput`, i.e. node, input id
and element, modelled as two naturals), and its `from_item()` /
`to_item()` pointers.  Each `NodeViewItem`'s `edges_` list is kept in
an association list from item id to its edge list. -/

/-- The data stored in a `NodeViewEdge`. -/
structure EdgeRec where
  output : ℕ
  inputNode : ℕ
  inputId : ℕ
  fromItem : ℕ
  toItem : ℕ
deriving DecidableEq

/-- The `(output, input)` pair an edge represents. -/
def EdgeRec.key (r : EdgeRec) : ℕ × ℕ × ℕ :=
  (r.output, r.inputNode, r.inputId)

/-- Look an item's `edges_` list up in the association list
(absent items have an empty list). -/
def lookupEdges (m : List (ℕ × List ℕ)) (it : ℕ) : List ℕ :=
  ((m.find? fun p => p.1 == it).map Prod.snd).getD []

/-- Update an item's `edges_` list in place (first entry with the key;
a missing item gets an entry holding `f []`). -/
def updItemEdges (m : List (ℕ × List ℕ)) (it : ℕ) (f : List ℕ → List ℕ) :
    List (ℕ × List ℕ) :=
  match m with
  | [] => [(it, f [])]
  | p :: rest => if p.1 = it then (it, f p.2) :: rest else p :: updItemEdges rest it f

/-- Edge-related state of a `NodeViewScene`. -/
structure EdgeScene where
  edges : List ℕ
  edata : ℕ → EdgeRec
  itemEdges : List (ℕ × List ℕ)
  nodeItem : ℕ → ℕ
  nextId : ℕ

/-- `NodeViewScene::EdgeToUIObject` (nodeviewscene.cpp:94-103): the
first edge of `edges_` whose output and input match. -/
def EdgeToUIObject (s : EdgeScene) (output inputNode inputId : ℕ) : Option ℕ :=
  s.edges.find? fun e =>
    (s.edata e).output == output && (s.edata e).inputNode == inputNode
      && (s.edata e).inputId == inputId

/-- `NodeViewScene::AddEdgeInternal` (nodeviewscene.cpp:212-226):
creates a fresh edge, appends it to both endpoint items' `edges_`
lists (`from` first, then `to`) and to the scene's `edges_` list. -/
def AddEdgeInternal (s : EdgeScene) (output inputNode inputId : ℕ) : ℕ × EdgeScene :=
  let id := s.nextId
  let fromIt := s.nodeItem output
  let toIt := s.nodeItem inputNode
  let r : EdgeRec := ⟨output, inputNode, inputId, fromIt, toIt⟩
  (id,
   { edges := s.edges ++ [id]
     edata := fun e => if e = id then r else s.edata e
     itemEdges := updItemEdges (updItemEdges s.itemEdges fromIt (· ++ [id])) toIt (· ++ [id])
     nodeItem := s.nodeItem
     nextId := id + 1 })

/-- `NodeViewScene::AddEdge` (nodeviewscene.cpp:146-155): returns the
existing edge unchanged, otherwise calls `AddEdgeInternal`. -/
def AddEdge (s : EdgeScene) (output inputNode inputId : ℕ) : ℕ × EdgeScene :=
  match EdgeToUIObject s output inputNode inputId with
  | some e => (e, s)
  | none => AddEdgeInternal s output inputNode inputId

/-- `NodeViewScene::RemoveEdge` (nodeviewscene.cpp:157-166): removes
the matching edge (when present) from `from_item()`'s list,
`to_item()`'s list and the scene's `edges_` list (`removeOne`, i.e.
first occurrence). -/
def RemoveEdge (s : EdgeScene) (output inputNode inputId : ℕ) : EdgeScene :=
  match EdgeToUIObject s output inputNode inputId with
  | none => s
  | some e =>
    { s with
      itemEdges :=
        updItemEdges (updItemEdges s.itemEdges (s.edata e).fromItem (·.erase e))
          (s.edata e).toItem (·.erase e)
      edges := s.edges.erase e }

/-- The at-most-one-edge-and-fully-registered invariant of the scene's
edge lists, strengthened to an inductive form: edge keys in `edges_`
are pairwise distinct; every registered edge appears exactly once in
each of its two endpoint items' lists (twice in the single list when
both endpoints are the same item); and every edge id anywhere is
below the allocator's next id. -/
def EdgeInv (s : EdgeScene) : Prop :=
  (s.edges.map fun e => (s.edata e).key).Nodup
  ∧ (∀ e ∈ s.edges,
      (if (s.edata e).fromItem = (s.edata e).toItem then
        (lookupEdges s.itemEdges (s.edata e).fromItem).count e = 2
      else
        (lookupEdges s.itemEdges (s.edata e).fromItem).count e = 1
          ∧ (lookupEdges s.itemEdges (s.edata e).toItem).count e = 1))
  ∧ (∀ e ∈ s.edges, e < s.nextId)
  ∧ (∀ p ∈ s.itemEdges, ∀ e ∈ p.2, e < s.nextId)

/-! ### Color-space chooser (colorspacechooser.cpp)

`QComboBox` is modelled by its item list and current text.  Inserting
an item into an empty (non-editable) combobox makes it current;
`clear()` empties the box (current text becomes empty);
`setCurrentText` on a non-editable box selects the matching item and
does nothing when no item matches. -/

/-- A non-editable `QComboBox`. -/
structure ComboBox where
  items : List String
  current : String
deriving DecidableEq

/-- `QComboBox::addItem`. -/
def ComboBox.addItem (cb : ComboBox) (s : String) : ComboBox :=
  { items := cb.items ++ [s], current := if cb.items.isEmpty then s else cb.current }

/-- An empty combobox / `QComboBox::clear`. -/
def ComboBox.empty : ComboBox := ⟨[], ""⟩

/-- `QComboBox::setCurrentText` on a non-editable box. -/
def ComboBox.setCurrentText (cb : ComboBox) (s : String) : ComboBox :=
  if s ∈ cb.items then { cb with current := s } else cb

/-- The slice of `ColorManager` the chooser queries (the color manager
is OCIO-backed code outside this sample; its query results are data
here). -/
structure ColorManager where
  inputColorspaces : List String
  defaultInputColorspace : String
  displays : List String
  defaultDisplay : String
  views : String → List String
  defaultView : String → String
  looks : List String

/-- `ColorSpaceChooser::UpdateViews` (colorspacechooser.cpp:117-136)
acting on the view combobox: remember the current view, clear and
repopulate from `ListAvailableViews(s)`, then restore the old view if
still available and otherwise select `GetDefaultView(s)`. -/
def UpdateViews (cm : ColorManager) (vcb : ComboBox) (s : String) : ComboBox :=
  let v := vcb.current
  let cb := (cm.views s).foldl ComboBox.addItem ComboBox.empty
  if v ∈ cm.views s then cb.setCurrentText v
  else cb.setCurrentText (cm.defaultView s)

/-- The widget state of a `ColorSpaceChooser`; `inputCb` is `none`
when `input_combobox_` is the null pointer. -/
structure CSChooser where
  inputCb : Option ComboBox
  displayCb : ComboBox
  viewCb : ComboBox
  lookCb : ComboBox
deriving DecidableEq

/-- `ColorSpaceChooser::ColorSpaceChooser` (colorspacechooser.cpp:6-86):
the input combobox is only created when `enable_input_field` is set
(otherwise the member stays null); display, view and look boxes are
always created, the view box being filled by `UpdateViews` on the
display box's current text. -/
def mkColorSpaceChooser (cm : ColorManager) (enableInputField : Bool) : CSChooser :=
  let inputCb :=
    if enableInputField then
      let cb := cm.inputColorspaces.foldl ComboBox.addItem ComboBox.empty
      some (if cm.defaultInputColorspace.isEmpty then cb
            else cb.setCurrentText cm.defaultInputColorspace)
    else
      none
  let displayCb :=
    (cm.displays.foldl ComboBox.addItem ComboBox.empty).setCurrentText cm.defaultDisplay
  { inputCb := inputCb
    displayCb := displayCb
    viewCb := UpdateViews cm ComboBox.empty displayCb.current
    lookCb := cm.looks.foldl ComboBox.addItem ComboBox.empty }

/-- `ColorSpaceChooser::input` (colorspacechooser.cpp:88-95): guarded
against the null input combobox, returning the empty string then. -/
def CSChooser.input (c : CSChooser) : String :=
  match c.inputCb with
  | some cb => cb.current
  | none => ""

/-- `ColorSpaceChooser::display` (colorspacechooser.cpp:97-100). -/
def CSChooser.display (c : CSChooser) : String :=
  c.displayCb.current

/-- `ColorSpaceChooser::view` (colorspacechooser.cpp:102-105). -/
def CSChooser.view (c : CSChooser) : String :=
  c.viewCb.current

/-- `ColorSpaceChooser::look` (colorspacechooser.cpp:107-110). -/
def CSChooser.look (c : CSChooser) : String :=
  c.lookCb.current

/-- `ColorSpaceChooser::set_input` (colorspacechooser.cpp:112-115):
`input_combobox_->setCurrentText(s)` with no null check; `none`
models the null-pointer dereference when the input combobox was never
created. -/
def CSChooser.set_input (c : CSChooser) (s : String) : Option CSChooser :=
  match c.inputCb with
  | some cb => some { c with inputCb := some (cb.setCurrentText s) }
  | none => none

/-- A signal emitted by `ColorSpaceChooser::ComboBoxChanged`. -/
inductive CSSignal where
  | colorSpaceChanged (input display view look : String)
  | displayColorSpaceChanged (display view look : String)
deriving DecidableEq

/-- `ColorSpaceChooser::ComboBoxChanged` (colorspacechooser.cpp:138-145):
emits `ColorSpaceChanged` only when the input combobox exists, and
always emits `DisplayColorSpaceChanged`. -/
def CSChooser.comboBoxChanged (c : CSChooser) : List CSSignal :=
  (if c.inputCb.isSome then
    [CSSignal.colorSpaceChanged c.input c.display c.view c.look]
  else [])
  ++ [CSSignal.displayColorSpaceChanged c.display c.view c.look]

/-! ### Node view item state (nodeviewitem.cpp:240-278, 363-391)

The item state relevant to `SetExpanded` and the mouse handlers:
the number of connectable inputs collected by `SetNode`
(`node_inputs_.size()`), the `expanded_` and `hide_titlebar_` flags,
the fixed `title_bar_rect_`, the current `rect()` and the input
connector's visibility. -/

/-- A `QRectF` (position and size, exact rationals). -/
structure QRectF where
  x : ℚ
  y : ℚ
  w : ℚ
  h : ℚ
deriving DecidableEq

/-- `QRectF::setHeight`: moves the bottom edge, keeping the top. -/
def QRectF.setHeight (r : QRectF) (h : ℚ) : QRectF :=
  { r with h := h }

/-- The `NodeViewItem` state touched by `SetExpanded`. -/
structure NVItem where
  nInputs : ℕ
  expanded : Bool
  hideTitlebar : Bool
  titleBarRect : QRectF
  rect : QRectF
  inputConnectorVisible : Bool
deriving DecidableEq

/-- `NodeViewItem::SetExpanded` (nodeviewitem.cpp:240-273): early
return when the node has no connectable inputs or the state would not
change; otherwise store the flags, hide the input connector while
expanded, and set the rect to the title bar rect stretched to one row
per input (plus one for the title bar when shown), or back to the
title bar rect when collapsing. -/
def SetExpanded (e hideTitlebar : Bool) (it : NVItem) : NVItem :=
  if it.nInputs = 0 ∨ (it.expanded = e ∧ it.hideTitlebar = hideTitlebar) then
    it
  else
    let it := { it with
      expanded := e
      hideTitlebar := hideTitlebar
      inputConnectorVisible := !e }
    if e = true ∧ it.nInputs ≠ 0 then
      if it.hideTitlebar then
        { it with rect := it.titleBarRect.setHeight (it.titleBarRect.h * it.nInputs) }
      else
        { it with rect := it.titleBarRect.setHeight (it.titleBarRect.h * (it.nInputs + 1)) }
    else
      { it with rect := it.titleBarRect }

/-- The keyboard modifiers of a `QGraphicsSceneMouseEvent`. -/
structure MouseModifiers where
  ctrl : Bool
  shift : Bool
  alt : Bool
deriving DecidableEq

/-- Modelled from the spec: `FlipControlAndShiftModifiers`
(common/flipmodifiers.h, not part of this sample) swaps the Control
and Shift modifier flags and leaves the others alone. -/
def FlipControlAndShiftModifiers (m : MouseModifiers) : MouseModifiers :=
  { m with ctrl := m.shift, shift := m.ctrl }

/-- `NodeViewItem::mousePressEvent` (nodeviewitem.cpp:363-368): the
modifiers of the event as forwarded to the default
`QGraphicsRectItem` handler. -/
def mousePressForward (m : MouseModifiers) : MouseModifiers :=
  FlipControlAndShiftModifiers m

/-- `NodeViewItem::mouseMoveEvent` (nodeviewitem.cpp:370-375): the
modifiers of the event as forwarded to the default handler. -/
def mouseMoveForward (m : MouseModifiers) : MouseModifiers :=
  FlipControlAndShiftModifiers m

/-- `NodeViewItem::mouseReleaseEvent` (nodeviewitem.cpp:377-382): the
modifiers of the event as forwarded to the default handler. -/
def mouseReleaseForward (m : MouseModifiers) : MouseModifiers :=
  FlipControlAndShiftModifiers m

/-- `NodeViewItem::mouseDoubleClickEvent` (nodeviewitem.cpp:384-391):
after the default handler, toggles the expanded state unless Control
is held (`SetExpanded(!IsExpanded())`; the `hide_titlebar` argument
defaults to `false` in the declaration, which is outside this
sample). -/
def mouseDoubleClick (m : MouseModifiers) (it : NVItem) : NVItem :=
  if m.ctrl then it else SetExpanded (!it.expanded) false it

/-! ### Concrete states used by the witnesses -/

/-- A small scene: items 1, 2, 3 with the odd ones selected, two
mapped nodes and one edge item. -/
def sceneEx : SelScene :=
  ⟨[1, 2, 3], fun j => j % 2 == 1, [(10, 1), (20, 2)], [3]⟩

/-- A scene holding one edge (id 0) from node 1's item 10 to input
(2, 5) on item 20. -/
def edgeSceneEx : EdgeScene where
  edges := [0]
  edata := fun e => if e = 0 then ⟨1, 2, 5, 10, 20⟩ else ⟨0, 0, 0, 0, 0⟩
  itemEdges := [(10, [0]), (20, [0])]
  nodeItem := fun n => 10 * n
  nextId := 1

/-- A small color manager with two displays. -/
def cmEx : ColorManager where
  inputColorspaces := ["srgb"]
  defaultInputColorspace := "srgb"
  displays := ["d1", "d2"]
  defaultDisplay := "d1"
  views := fun d => if d = "d2" then ["v2a", "v2b"] else ["v1"]
  defaultView := fun d => if d = "d2" then "v2b" else "v1"
  looks := ["look1"]

/-- A view combobox currently showing display d1's view. -/
def vcbEx : ComboBox := ⟨["v1"], "v1"⟩

/-- A collapsed item with two connectable inputs. -/
def itemEx : NVItem :=
  ⟨2, false, false, ⟨-8, -1, 16, 2⟩, ⟨-8, -1, 16, 2⟩, true⟩

/-- A collapsed item whose node has no connectable inputs. -/
def itemNoInputs : NVItem :=
  ⟨0, false, false, ⟨-8, -1, 16, 2⟩, ⟨-8, -1, 16, 2⟩, true⟩

/-- A double click with no modifiers held. -/
def mNone : MouseModifiers := ⟨false, false, false⟩

/-- Shift and Alt held, Control not. -/
def mShiftAlt : MouseModifiers := ⟨false, true, true⟩

/-! ## Theorems -/

/-- Folding over an attached list only using the values folds over the
plain list. -/
theorem foldl_attach_val {α β : Type} (l : List α) (F : β → α → β) (init : β) :
    l.attach.foldl (fun w i => F w i.1) init = l.foldl F init := by
  have h := List.foldl_map Subtype.val F l.attach init
  rw [← h]
  congr 1
  simp

/-- Mapping over an attached list only using the values maps over the
plain list. -/
theorem map_attach_val {α β : Type} (l : List α) (F : α → β) :
    (l.attach.map fun i => F i.1) = l.map F :=
  List.attach_map_val l F

/-- A conditional accumulation loop computes the sum of the function
over the filtered list. -/
theorem foldl_filter_sum (c : ℕ → Prop) [DecidablePred c] (F : ℕ → ℤ) :
    ∀ (l : List ℕ) (acc : ℤ),
      l.foldl (fun w i => if c i then w + F i else w) acc
        = acc + ((l.filter fun i => decide (c i)).map F).sum := by
  intro l
  induction l with
  | nil => simp
  | cons a t ih =>
    intro acc
    rw [List.foldl_cons]
    by_cases h : c a
    · simp only [if_pos h, ih, List.filter_cons, decide_eq_true h]
      simp
      ring
    · simp only [if_neg h, ih, List.filter_cons]
      simp [h]

/-- The scene's weight computation agrees with the self-contained
reference definition on every acyclic graph. -/
theorem weight_eq_ref_aux (g : NodeGraph) :
    ∀ n, DetermineWeight g n = determineWeightRef g n := by
  intro n
  induction n using Nat.strong_induction_on with
  | _ n ih =>
    rw [DetermineWeight, determineWeightRef]
    rw [foldl_attach_val (g.deps n)
      (fun w a => if g.routes a n = 1 then w + DetermineWeight g a else w) 0]
    rw [foldl_filter_sum (fun i => g.routes i n = 1) (DetermineWeight g)]
    rw [map_attach_val ((g.deps n).filter fun m => decide (g.routes m n = 1))
      (determineWeightRef g)]
    rw [zero_add]
    congr 1
    congr 1
    apply List.map_congr_left
    intro a ha
    exact ih a (g.wf n a (List.mem_of_mem_filter ha))

/-- The node-to-screen transform agrees with its closed linear
reference form. -/
theorem nodeToScreen_eq_ref_aux (hp vp : FlowDirection → ℚ) (d : FlowDirection)
    (p : QPointF) : NodeToScreenPoint hp vp d p = nodeToScreenPointRef hp vp d p := by
  cases d <;> rfl

/-- The screen-to-node transform agrees with its closed linear
reference form. -/
theorem screenToNode_eq_ref_aux (hp vp : FlowDirection → ℚ) (d : FlowDirection)
    (p : QPointF) : ScreenToNodePoint hp vp d p = screenToNodePointRef hp vp d p := by
  cases d <;> rfl

/-- Counterexample to C1: the layout weight computation
`DetermineWeight` does admit a self-contained, toolkit-free reference
definition that the code is provably equal to, refuting the claim
that no listed operation admits one. -/
theorem separable_core_exists : DetermineWeight = determineWeightRef :=
  funext fun g => funext fun n => weight_eq_ref_aux g n

/-- C1 (amended).  Painting, event forwarding and selection management
are expressed over toolkit state, but the coordinate transforms
`NodeToScreenPoint` / `ScreenToNodePoint` (as pure functions of the
two font-metric padding scalars) and the layout weight computation
`DetermineWeight` (a pure recursion over the node graph) each admit a
self-contained, toolkit-free reference definition that the code is
provably equal to. -/
theorem algorithmic_core_refines :
    (∀ (hp vp : FlowDirection → ℚ) (d : FlowDirection) (p : QPointF),
        NodeToScreenPoint hp vp d p = nodeToScreenPointRef hp vp d p)
      ∧ (∀ (hp vp : FlowDirection → ℚ) (d : FlowDirection) (p : QPointF),
          ScreenToNodePoint hp vp d p = screenToNodePointRef hp vp d p)
      ∧ (∀ (g : NodeGraph) (n : ℕ), DetermineWeight g n = determineWeightRef g n) :=
  ⟨nodeToScreen_eq_ref_aux, screenToNode_eq_ref_aux, weight_eq_ref_aux⟩

/-- Running the `setSelected(b)` loop sets the flag of exactly the
listed items. -/
theorem setSelectedAll_apply (b : Bool) :
    ∀ (l : List ℕ) (sel : ℕ → Bool) (j : ℕ),
      setSelectedAll l b sel j = if j ∈ l then b else sel j := by
  intro l
  induction l with
  | nil => intro sel j; simp [setSelectedAll]
  | cons a t ih =>
    intro sel j
    rw [setSelectedAll, ih]
    by_cases hjt : j ∈ t
    · simp [hjt]
    · by_cases hja : j = a <;> simp [hjt, hja]

/-- C3.  After `DeselectAll` no scene item is selected and the three
selection queries return empty collections; after `SelectAll` every
scene item is selected and `GetSelectedNodes` returns exactly the
keys of the node-to-item map.  The hypotheses state that the mapped
items and the edge items belong to the scene. -/
theorem selectAll_deselectAll_spec (s : SelScene)
    (hmap : ∀ p ∈ s.itemMap, p.2 ∈ s.items)
    (hedge : ∀ e ∈ s.edges, e ∈ s.items) :
    (∀ j ∈ s.items, (DeselectAll s).sel j = false)
      ∧ GetSelectedNodes (DeselectAll s) = []
      ∧ GetSelectedItems (DeselectAll s) = []
      ∧ GetSelectedEdges (DeselectAll s) = []
      ∧ (∀ j ∈ s.items, (SelectAll s).sel j = true)
      ∧ GetSelectedNodes (SelectAll s) = s.itemMap.map Prod.fst := by
  have hdesel : ∀ j ∈ s.items, (DeselectAll s).sel j = false := by
    intro j hj
    show setSelectedAll (selectedItems s) false s.sel j = false
    rw [setSelectedAll_apply]
    by_cases hmem : j ∈ selectedItems s
    · simp [hmem]
    · simp only [hmem, if_false]
      rcases Bool.eq_false_or_eq_true (s.sel j) with h | h
      · exact absurd (List.mem_filter.mpr ⟨hj, h⟩) hmem
      · exact h
  have hselall : ∀ j ∈ s.items, (SelectAll s).sel j = true := by
    intro j hj
    show setSelectedAll s.items true s.sel j = true
    rw [setSelectedAll_apply]
    simp [hj]
  refine ⟨hdesel, ?_, ?_, ?_, hselall, ?_⟩
  · show ((s.itemMap.filter fun p => (DeselectAll s).sel p.2).map Prod.fst) = []
    rw [List.filter_eq_nil_iff.mpr fun p hp => by simp [hdesel p.2 (hmap p hp)]]
    rfl
  · show ((s.itemMap.filter fun p => (DeselectAll s).sel p.2).map Prod.snd) = []
    rw [List.filter_eq_nil_iff.mpr fun p hp => by simp [hdesel p.2 (hmap p hp)]]
    rfl
  · show s.edges.filter (DeselectAll s).sel = []
    exact List.filter_eq_nil_iff.mpr fun e he => by simp [hdesel e (hedge e he)]
  · show ((s.itemMap.filter fun p => (SelectAll s).sel p.2).map Prod.fst) = _
    rw [List.filter_eq_self.mpr fun p hp => hselall p.2 (hmap p hp)]

/-- Witness for C3 on a scene with three items, two mapped nodes and
one edge item. -/
theorem selectAll_deselectAll_spec_witness :
    ((∀ p ∈ sceneEx.itemMap, p.2 ∈ sceneEx.items)
        ∧ (∀ e ∈ sceneEx.edges, e ∈ sceneEx.items))
      ∧ ((∀ j ∈ sceneEx.items, (DeselectAll sceneEx).sel j = false)
          ∧ GetSelectedNodes (DeselectAll sceneEx) = []
          ∧ GetSelectedItems (DeselectAll sceneEx) = []
          ∧ GetSelectedEdges (DeselectAll sceneEx) = []
          ∧ (∀ j ∈ sceneEx.items, (SelectAll sceneEx).sel j = true)
          ∧ GetSelectedNodes (SelectAll sceneEx) = sceneEx.itemMap.map Prod.fst) :=
  ⟨⟨by decide, by decide⟩,
   selectAll_deselectAll_spec sceneEx (by decide) (by decide)⟩

/-- Populating a combobox appends the added items in order. -/
theorem foldl_addItem_items :
    ∀ (l : List String) (cb : ComboBox),
      (l.foldl ComboBox.addItem cb).items = cb.items ++ l := by
  intro l
  induction l with
  | nil => intro cb; simp
  | cons a t ih =>
    intro cb
    rw [List.foldl_cons, ih]
    simp [ComboBox.addItem]

/-- `setCurrentText` never changes the item list. -/
theorem setCurrentText_items (cb : ComboBox) (t : String) :
    (cb.setCurrentText t).items = cb.items := by
  rw [ComboBox.setCurrentText]
  split <;> rfl

/-- C4.  `UpdateViews` repopulates the view combobox with exactly the
views of the given display; the previously selected view stays
selected when still available, and otherwise the display's default
view becomes selected (the default view being one of the display's
views). -/
theorem updateViews_spec (cm : ColorManager) (vcb : ComboBox) (s : String) :
    (UpdateViews cm vcb s).items = cm.views s
      ∧ (vcb.current ∈ cm.views s → (UpdateViews cm vcb s).current = vcb.current)
      ∧ (vcb.current ∉ cm.views s → cm.defaultView s ∈ cm.views s →
          (UpdateViews cm vcb s).current = cm.defaultView s) := by
  have hitems : ((cm.views s).foldl ComboBox.addItem ComboBox.empty).items = cm.views s := by
    rw [foldl_addItem_items]
    rfl
  refine ⟨?_, ?_, ?_⟩
  · rw [UpdateViews]
    split <;> rw [setCurrentText_items, hitems]
  · intro h
    have hmem : vcb.current ∈ ((cm.views s).foldl ComboBox.addItem ComboBox.empty).items := by
      rw [hitems]; exact h
    rw [UpdateViews]
    rw [if_pos h, ComboBox.setCurrentText, if_pos hmem]
  · intro h hd
    have hmem : cm.defaultView s ∈ ((cm.views s).foldl ComboBox.addItem ComboBox.empty).items := by
      rw [hitems]; exact hd
    rw [UpdateViews]
    rw [if_neg h, ComboBox.setCurrentText, if_pos hmem]

/-- Witness for C4: switching the view box from display d1's view to
display d2 selects d2's default view among d2's views. -/
theorem updateViews_spec_witness :
    (UpdateViews cmEx vcbEx "d2").items = cmEx.views "d2"
      ∧ (vcbEx.current ∈ cmEx.views "d2" →
          (UpdateViews cmEx vcbEx "d2").current = vcbEx.current)
      ∧ (vcbEx.current ∉ cmEx.views "d2" → cmEx.defaultView "d2" ∈ cmEx.views "d2" →
          (UpdateViews cmEx vcbEx "d2").current = cmEx.defaultView "d2") :=
  updateViews_spec cmEx vcbEx "d2"

/-- Counterexample to C6: with `enable_input_field = false` the
chooser's `set_input` dereferences the null input combobox (modelled
by returning `none`), so not every public member can be called
safely. -/
theorem set_input_null_deref :
    (mkColorSpaceChooser cmEx false).set_input "srgb" = none := by
  rfl

/-- C6 (amended).  For a chooser constructed with
`enable_input_field = false`, `input()` returns the empty string and
the members guarding the null pointer (`input`, `ComboBoxChanged`)
are safe, but `set_input` dereferences the null input combobox. -/
theorem colorSpaceChooser_no_input_field_spec (cm : ColorManager) (t : String) :
    (mkColorSpaceChooser cm false).input = ""
      ∧ (mkColorSpaceChooser cm false).set_input t = none
      ∧ (mkColorSpaceChooser cm false).comboBoxChanged
          = [CSSignal.displayColorSpaceChanged (mkColorSpaceChooser cm false).display
              (mkColorSpaceChooser cm false).view (mkColorSpaceChooser cm false).look] := by
  have hnone : (mkColorSpaceChooser cm false).inputCb = none := rfl
  refine ⟨?_, ?_, ?_⟩
  · rw [CSChooser.input, hnone]
  · rw [CSChooser.set_input, hnone]
  · rw [CSChooser.comboBoxChanged, hnone]
    rfl

/-- C7.  `SetExpanded` leaves an item with no connectable inputs
entirely unchanged; on an item with inputs, a state-changing
expansion stretches the rect to one title-bar height per input, plus
one more when the title bar is shown, and a state-changing collapse
restores exactly the title-bar rect. -/
theorem setExpanded_spec (it : NVItem) (e ht : Bool) :
    (it.nInputs = 0 → SetExpanded e ht it = it)
      ∧ (1 ≤ it.nInputs → ¬(it.expanded = true ∧ it.hideTitlebar = true) →
          (SetExpanded true true it).rect
            = it.titleBarRect.setHeight (it.titleBarRect.h * it.nInputs))
      ∧ (1 ≤ it.nInputs → ¬(it.expanded = true ∧ it.hideTitlebar = false) →
          (SetExpanded true false it).rect
            = it.titleBarRect.setHeight (it.titleBarRect.h * (it.nInputs + 1)))
      ∧ (1 ≤ it.nInputs → ¬(it.expanded = false ∧ it.hideTitlebar = ht) →
          (SetExpanded false ht it).rect = it.titleBarRect) := by
  refine ⟨?_, ?_, ?_, ?_⟩
  · intro h0
    rw [SetExpanded, if_pos (Or.inl h0)]
  · intro h1 hne
    have h0 : it.nInputs ≠ 0 := by omega
    simp [SetExpanded, h0, hne]
  · intro h1 hne
    have h0 : it.nInputs ≠ 0 := by omega
    simp [SetExpanded, h0, hne]
  · intro h1 hne
    have h0 : it.nInputs ≠ 0 := by omega
    simp [SetExpanded, h0, hne]

/-- Witness for C7: a state-changing expansion and collapse of a
collapsed item with two inputs. -/
theorem setExpanded_spec_witness :
    (itemEx.nInputs = 0 → SetExpanded true false itemEx = itemEx)
      ∧ (1 ≤ itemEx.nInputs → ¬(itemEx.expanded = true ∧ itemEx.hideTitlebar = true) →
          (SetExpanded true true itemEx).rect
            = itemEx.titleBarRect.setHeight (itemEx.titleBarRect.h * itemEx.nInputs))
      ∧ (1 ≤ itemEx.nInputs → ¬(itemEx.expanded = true ∧ itemEx.hideTitlebar = false) →
          (SetExpanded true false itemEx).rect
            = itemEx.titleBarRect.setHeight (itemEx.titleBarRect.h * (itemEx.nInputs + 1)))
      ∧ (1 ≤ itemEx.nInputs → ¬(itemEx.expanded = false ∧ itemEx.hideTitlebar = false) →
          (SetExpanded false false itemEx).rect = itemEx.titleBarRect) :=
  setExpanded_spec itemEx true false

/-- Looking an item up in an empty association list yields the empty
edge list. -/
theorem lookupEdges_nil (it : ℕ) : lookupEdges [] it = [] := rfl

/-- Association-list lookup steps over the head entry. -/
theorem lookupEdges_cons (q : ℕ × List ℕ) (rest : List (ℕ × List ℕ)) (it : ℕ) :
    lookupEdges (q :: rest) it = if q.1 = it then q.2 else lookupEdges rest it := by
  by_cases h : q.1 = it
  · rw [lookupEdges, List.find?_cons_of_pos _ (by simp [h]), if_pos h]
    rfl
  · rw [lookupEdges, List.find?_cons_of_neg _ (by simp [h]), if_neg h]
    rfl

/-- Updating one item's edge list changes exactly that item's list. -/
theorem lookupEdges_upd (m : List (ℕ × List ℕ)) (it it' : ℕ) (f : List ℕ → List ℕ) :
    lookupEdges (updItemEdges m it f) it'
      = if it' = it then f (lookupEdges m it) else lookupEdges m it' := by
  induction m with
  | nil =>
    rw [updItemEdges, lookupEdges_cons]
    by_cases h : it' = it
    · rw [if_pos h.symm, if_pos h]
      rfl
    · rw [if_neg (fun hh => h hh.symm), if_neg h]
  | cons p rest ih =>
    by_cases hp : p.1 = it
    · rw [updItemEdges, if_pos hp, lookupEdges_cons, lookupEdges_cons]
      by_cases h : it' = it
      · rw [if_pos h.symm, if_pos h, if_pos (hp.trans rfl)]
      · rw [if_neg (fun hh => h hh.symm), if_neg h, lookupEdges_cons,
          if_neg (fun hh => h (hp ▸ hh).symm)]
    · rw [updItemEdges, if_neg hp, lookupEdges_cons, ih]
      by_cases h1 : p.1 = it'
      · have hne : ¬(it' = it) := fun hh => hp (h1.trans hh)
        rw [if_pos h1, if_neg hne, lookupEdges_cons, if_pos h1]
      · rw [if_neg h1, lookupEdges_cons, if_neg hp, lookupEdges_cons, if_neg h1]

/-- Every edge id found by a lookup lives in some entry of the
association list. -/
theorem mem_lookupEdges {m : List (ℕ × List ℕ)} {it e : ℕ}
    (h : e ∈ lookupEdges m it) : ∃ p ∈ m, e ∈ p.2 := by
  rw [lookupEdges] at h
  cases hf : m.find? fun p => p.1 == it with
  | none => rw [hf] at h; simp at h
  | some q =>
    rw [hf] at h
    exact ⟨q, List.mem_of_find?_eq_some hf, h⟩

/-- A pointwise property of all stored edge ids survives an update
whose function preserves it. -/
theorem updItemEdges_forall {P : ℕ → Prop} (m : List (ℕ × List ℕ)) (it : ℕ)
    (f : List ℕ → List ℕ)
    (hm : ∀ p ∈ m, ∀ e ∈ p.2, P e)
    (hf : ∀ l, (∀ e ∈ l, P e) → ∀ e ∈ f l, P e) :
    ∀ p ∈ updItemEdges m it f, ∀ e ∈ p.2, P e := by
  induction m with
  | nil =>
    intro p hp
    simp only [updItemEdges, List.mem_singleton] at hp
    subst hp
    exact hf [] (by simp)
  | cons q rest ih =>
    intro p hp
    by_cases hq : q.1 = it
    · rw [updItemEdges, if_pos hq] at hp
      rcases List.mem_cons.mp hp with h | h
      · subst h
        exact hf q.2 (hm q (List.mem_cons_self q rest))
      · exact hm p (List.mem_cons_of_mem q h)
    · rw [updItemEdges, if_neg hq] at hp
      rcases List.mem_cons.mp hp with h | h
      · subst h
        exact hm p (List.mem_cons_self p rest)
      · exact ih (fun p hp => hm p (List.mem_cons_of_mem q hp)) p h

/-- `EdgeToUIObject` returns `none` exactly when no registered edge
carries the requested output/input pair. -/
theorem edgeToUI_none_iff (s : EdgeScene) (o i j : ℕ) :
    EdgeToUIObject s o i j = none ↔ ∀ e ∈ s.edges, (s.edata e).key ≠ (o, i, j) := by
  rw [EdgeToUIObject, List.find?_eq_none]
  constructor
  · intro h e he hk
    have hb := h e he
    rw [EdgeRec.key, Prod.mk.injEq, Prod.mk.injEq] at hk
    simp [hk.1, hk.2.1, hk.2.2] at hb
  · intro h e he
    have hb := h e he
    rw [EdgeRec.key] at hb
    simp only [ne_eq, Prod.mk.injEq, not_and] at hb
    intro hc
    simp only [Bool.and_eq_true, beq_iff_eq] at hc
    exact hb hc.1.1 hc.1.2 hc.2

/-- `EdgeToUIObject` returns a registered edge carrying the requested
output/input pair. -/
theorem edgeToUI_some (s : EdgeScene) (o i j e : ℕ)
    (h : EdgeToUIObject s o i j = some e) :
    e ∈ s.edges ∧ (s.edata e).key = (o, i, j) := by
  refine ⟨List.mem_of_find?_eq_some h, ?_⟩
  have := List.find?_some h
  simp only [Bool.and_eq_true, beq_iff_eq] at this
  rw [EdgeRec.key, this.1.1, this.1.2, this.2]

/-- `AddEdgeInternal` returns an edge that is registered in the
scene's edge list and in both endpoint items' edge lists. -/
theorem addEdgeInternal_mem (s : EdgeScene) (o i j : ℕ) :
    (AddEdgeInternal s o i j).1 ∈ (AddEdgeInternal s o i j).2.edges
      ∧ (AddEdgeInternal s o i j).1
          ∈ lookupEdges (AddEdgeInternal s o i j).2.itemEdges (s.nodeItem o)
      ∧ (AddEdgeInternal s o i j).1
          ∈ lookupEdges (AddEdgeInternal s o i j).2.itemEdges (s.nodeItem i) := by
  refine ⟨?_, ?_, ?_⟩
  · show s.nextId ∈ s.edges ++ [s.nextId]
    simp
  · show s.nextId ∈ lookupEdges (updItemEdges
      (updItemEdges s.itemEdges (s.nodeItem o) (· ++ [s.nextId]))
      (s.nodeItem i) (· ++ [s.nextId])) (s.nodeItem o)
    rw [lookupEdges_upd]
    by_cases h : s.nodeItem o = s.nodeItem i
    · rw [if_pos h]
      simp
    · rw [if_neg h, lookupEdges_upd, if_pos rfl]
      simp
  · show s.nextId ∈ lookupEdges (updItemEdges
      (updItemEdges s.itemEdges (s.nodeItem o) (· ++ [s.nextId]))
      (s.nodeItem i) (· ++ [s.nextId])) (s.nodeItem i)
    rw [lookupEdges_upd, if_pos rfl]
    simp

/-- Adding a genuinely new edge preserves the registration
invariant. -/
theorem addEdgeInternal_inv (s : EdgeScene) (o i j : ℕ) (hInv : EdgeInv s)
    (hnone : EdgeToUIObject s o i j = none) :
    EdgeInv (AddEdgeInternal s o i j).2 := by
  obtain ⟨hnd, hcnt, hlt, hall⟩ := hInv
  have hkeys := (edgeToUI_none_iff s o i j).mp hnone
  have hNe : ∀ e ∈ s.edges, e ≠ s.nextId := fun e he => Nat.ne_of_lt (hlt e he)
  have hcnt0 : ∀ it, (lookupEdges s.itemEdges it).count s.nextId = 0 := by
    intro it
    rw [List.count_eq_zero]
    intro hmem
    obtain ⟨p, hp, hep⟩ := mem_lookupEdges hmem
    exact absurd (hall p hp s.nextId hep) (lt_irrefl s.nextId)
  have hedata : ∀ e, (AddEdgeInternal s o i j).2.edata e
      = if e = s.nextId then ⟨o, i, j, s.nodeItem o, s.nodeItem i⟩
        else s.edata e := fun e => rfl
  have hedges : (AddEdgeInternal s o i j).2.edges = s.edges ++ [s.nextId] := rfl
  have hitem : (AddEdgeInternal s o i j).2.itemEdges
      = updItemEdges (updItemEdges s.itemEdges (s.nodeItem o) (· ++ [s.nextId]))
          (s.nodeItem i) (· ++ [s.nextId]) := rfl
  have hnext : (AddEdgeInternal s o i j).2.nextId = s.nextId + 1 := rfl
  have hcntN : ∀ it, (lookupEdges (AddEdgeInternal s o i j).2.itemEdges it).count s.nextId
      = (if it = s.nodeItem i then 1 else 0) + (if it = s.nodeItem o then 1 else 0) := by
    intro it
    rw [hitem, lookupEdges_upd]
    by_cases h1 : it = s.nodeItem i
    · rw [if_pos h1, if_pos h1, List.count_append, lookupEdges_upd]
      by_cases h2 : s.nodeItem i = s.nodeItem o
      · rw [if_pos h2, if_pos (h1.trans h2), List.count_append, hcnt0]
        simp
      · rw [if_neg h2, if_neg (fun hh => h2 (h1.symm.trans hh)), hcnt0]
        simp
    · rw [if_neg h1, if_neg h1, lookupEdges_upd]
      by_cases h2 : it = s.nodeItem o
      · rw [if_pos h2, if_pos h2, List.count_append, hcnt0]
        simp
      · rw [if_neg h2, if_neg h2, hcnt0]
  refine ⟨?_, ?_, ?_, ?_⟩
  · rw [hedges, List.map_append]
    have hmapold : s.edges.map (fun e => ((AddEdgeInternal s o i j).2.edata e).key)
        = s.edges.map fun e => (s.edata e).key :=
      List.map_congr_left fun e he => by rw [hedata, if_neg (hNe e he)]
    have hmapN : [s.nextId].map (fun e => ((AddEdgeInternal s o i j).2.edata e).key)
        = [(o, i, j)] := by
      rw [List.map_singleton, hedata, if_pos rfl]
      rfl
    rw [hmapold, hmapN, List.nodup_append]
    refine ⟨hnd, List.nodup_singleton _, ?_⟩
    intro x hx hx2
    rw [List.mem_singleton] at hx2
    subst hx2
    obtain ⟨e, he, hkey⟩ := List.mem_map.mp hx
    exact hkeys e he hkey
  · intro e he
    rw [hedges, List.mem_append] at he
    rcases he with heo | heN
    · have hE : (AddEdgeInternal s o i j).2.edata e = s.edata e := by
        rw [hedata, if_neg (hNe e heo)]
      have hco : ∀ it, (lookupEdges (AddEdgeInternal s o i j).2.itemEdges it).count e
          = (lookupEdges s.itemEdges it).count e := by
        intro it
        have hce : ∀ L : List ℕ, (L ++ [s.nextId]).count e = L.count e := by
          intro L
          rw [List.count_append, List.count_singleton]
          simp [Ne.symm (hNe e heo)]
        rw [hitem, lookupEdges_upd]
        by_cases h1 : it = s.nodeItem i
        · rw [if_pos h1, hce, lookupEdges_upd]
          by_cases h2 : s.nodeItem i = s.nodeItem o
          · rw [if_pos h2, hce, ← h2, ← h1]
          · rw [if_neg h2, ← h1]
        · rw [if_neg h1, lookupEdges_upd]
          by_cases h2 : it = s.nodeItem o
          · rw [if_pos h2, hce, ← h2]
          · rw [if_neg h2]
      rw [hE]
      simp only [hco]
      exact hcnt e heo
    · rw [List.mem_singleton] at heN
      subst heN
      have hEN : (AddEdgeInternal s o i j).2.edata s.nextId
          = ⟨o, i, j, s.nodeItem o, s.nodeItem i⟩ := by
        rw [hedata, if_pos rfl]
      rw [hEN]
      by_cases hFT : s.nodeItem o = s.nodeItem i
      · rw [if_pos hFT]
        show (lookupEdges (AddEdgeInternal s o i j).2.itemEdges (s.nodeItem o)).count s.nextId = 2
        rw [hcntN, if_pos hFT, if_pos rfl]
      · rw [if_neg hFT]
        constructor
        · show (lookupEdges (AddEdgeInternal s o i j).2.itemEdges (s.nodeItem o)).count s.nextId = 1
          rw [hcntN, if_neg hFT, if_pos rfl]
        · show (lookupEdges (AddEdgeInternal s o i j).2.itemEdges (s.nodeItem i)).count s.nextId = 1
          rw [hcntN, if_pos rfl, if_neg fun hh => hFT hh.symm]
  · intro e he
    rw [hedges, List.mem_append] at he
    rw [hnext]
    rcases he with heo | heN
    · exact Nat.lt_succ_of_lt (hlt e heo)
    · rw [List.mem_singleton] at heN
      subst heN
      exact Nat.lt_succ_self _
  · rw [hitem, hnext]
    apply updItemEdges_forall
    · apply updItemEdges_forall
      · intro p hp e hep
        exact Nat.lt_succ_of_lt (hall p hp e hep)
      · intro l hl e hel
        rcases List.mem_append.mp hel with h | h
        · exact hl e h
        · rw [List.mem_singleton] at h
          subst h
          exact Nat.lt_succ_self _
    · intro l hl e hel
      rcases List.mem_append.mp hel with h | h
      · exact hl e h
      · rw [List.mem_singleton] at h
        subst h
        exact Nat.lt_succ_self _

/-- `RemoveEdge` on a registered edge removes it from the scene's
edge list and both endpoint items' edge lists, and preserves the
registration invariant. -/
theorem removeEdge_spec (s : EdgeScene) (o i j e : ℕ) (hInv : EdgeInv s)
    (hsome : EdgeToUIObject s o i j = some e) :
    (e ∉ (RemoveEdge s o i j).edges
        ∧ e ∉ lookupEdges (RemoveEdge s o i j).itemEdges (s.edata e).fromItem
        ∧ e ∉ lookupEdges (RemoveEdge s o i j).itemEdges (s.edata e).toItem)
      ∧ EdgeInv (RemoveEdge s o i j) := by
  obtain ⟨hnd, hcnt, hlt, hall⟩ := hInv
  obtain ⟨hemem, hekey⟩ := edgeToUI_some s o i j e hsome
  have hedges_nd : s.edges.Nodup := List.Nodup.of_map _ hnd
  have henotmem : e ∉ s.edges.erase e := hedges_nd.not_mem_erase
  unfold RemoveEdge
  rw [hsome]
  have hlookR : ∀ it, lookupEdges (updItemEdges
      (updItemEdges s.itemEdges (s.edata e).fromItem (·.erase e))
      (s.edata e).toItem (·.erase e)) it
      = if it = (s.edata e).toItem then
          (if (s.edata e).toItem = (s.edata e).fromItem then
            ((lookupEdges s.itemEdges (s.edata e).fromItem).erase e).erase e
          else (lookupEdges s.itemEdges (s.edata e).toItem).erase e)
        else if it = (s.edata e).fromItem then
          (lookupEdges s.itemEdges (s.edata e).fromItem).erase e
        else lookupEdges s.itemEdges it := by
    intro it
    rw [lookupEdges_upd]
    by_cases h1 : it = (s.edata e).toItem
    · rw [if_pos h1, if_pos h1, lookupEdges_upd]
      by_cases h2 : (s.edata e).toItem = (s.edata e).fromItem
      · rw [if_pos h2, if_pos h2]
      · rw [if_neg h2, if_neg h2]
    · rw [if_neg h1, if_neg h1, lookupEdges_upd]
  have hout : e ∉ lookupEdges (updItemEdges
      (updItemEdges s.itemEdges (s.edata e).fromItem (·.erase e))
      (s.edata e).toItem (·.erase e)) (s.edata e).fromItem
      ∧ e ∉ lookupEdges (updItemEdges
        (updItemEdges s.itemEdges (s.edata e).fromItem (·.erase e))
        (s.edata e).toItem (·.erase e)) (s.edata e).toItem := by
    by_cases hFT : (s.edata e).fromItem = (s.edata e).toItem
    · have h2 := hcnt e hemem
      rw [if_pos hFT] at h2
      have hc : (((lookupEdges s.itemEdges (s.edata e).fromItem).erase e).erase e).count e = 0 := by
        rw [List.count_erase_self, List.count_erase_self, h2]
      have hm : e ∉ ((lookupEdges s.itemEdges (s.edata e).fromItem).erase e).erase e :=
        List.count_eq_zero.mp hc
      constructor
      · rw [hlookR, if_pos hFT, if_pos hFT.symm]
        exact hm
      · rw [hlookR, if_pos rfl, if_pos hFT.symm]
        exact hm
    · have h2 := hcnt e hemem
      rw [if_neg hFT] at h2
      constructor
      · rw [hlookR, if_neg hFT, if_pos rfl]
        exact List.count_eq_zero.mp (by rw [List.count_erase_self, h2.1])
      · rw [hlookR, if_pos rfl, if_neg fun hh => hFT hh.symm]
        exact List.count_eq_zero.mp (by rw [List.count_erase_self, h2.2])
  refine ⟨⟨henotmem, hout.1, hout.2⟩, ?_, ?_, ?_, ?_⟩
  · exact List.Nodup.sublist (List.Sublist.map _ (List.erase_sublist _ _)) hnd
  · intro e' he'
    have he'mem : e' ∈ s.edges := List.mem_of_mem_erase he'
    have hne : e' ≠ e := fun hh => henotmem (hh ▸ he')
    have hco : ∀ it, (lookupEdges (updItemEdges
        (updItemEdges s.itemEdges (s.edata e).fromItem (·.erase e))
        (s.edata e).toItem (·.erase e)) it).count e'
        = (lookupEdges s.itemEdges it).count e' := by
      intro it
      rw [hlookR]
      by_cases h1 : it = (s.edata e).toItem
      · rw [if_pos h1]
        by_cases h2 : (s.edata e).toItem = (s.edata e).fromItem
        · rw [if_pos h2, List.count_erase_of_ne hne, List.count_erase_of_ne hne, h1, h2]
        · rw [if_neg h2, List.count_erase_of_ne hne, h1]
      · rw [if_neg h1]
        by_cases h2 : it = (s.edata e).fromItem
        · rw [if_pos h2, List.count_erase_of_ne hne, h2]
        · rw [if_neg h2]
    simp only [hco]
    exact hcnt e' he'mem
  · intro e' he'
    exact hlt e' (List.mem_of_mem_erase he')
  · apply updItemEdges_forall
    · apply updItemEdges_forall
      · exact hall
      · intro l hl e' hel
        exact hl e' (List.mem_of_mem_erase hel)
    · intro l hl e' hel
      exact hl e' (List.mem_of_mem_erase hel)

/-- C5.  The scene keeps at most one edge per `(output, input)` pair:
`AddEdge` returns the existing edge with the scene unchanged when one
exists and otherwise registers a fresh edge in the scene's edge list
and in both endpoint items' edge lists; `RemoveEdge` removes the edge
from all three lists; and both operations preserve the
at-most-one-edge-and-fully-registered invariant `EdgeInv`. -/
theorem edge_registration_invariant (s : EdgeScene) (o i j : ℕ) (hInv : EdgeInv s) :
    (∀ e, EdgeToUIObject s o i j = some e → AddEdge s o i j = (e, s))
      ∧ (EdgeToUIObject s o i j = none →
          ((AddEdge s o i j).1 ∈ (AddEdge s o i j).2.edges
            ∧ (AddEdge s o i j).1
                ∈ lookupEdges (AddEdge s o i j).2.itemEdges (s.nodeItem o)
            ∧ (AddEdge s o i j).1
                ∈ lookupEdges (AddEdge s o i j).2.itemEdges (s.nodeItem i)))
      ∧ EdgeInv (AddEdge s o i j).2
      ∧ (∀ e, EdgeToUIObject s o i j = some e →
          (e ∉ (RemoveEdge s o i j).edges
            ∧ e ∉ lookupEdges (RemoveEdge s o i j).itemEdges (s.edata e).fromItem
            ∧ e ∉ lookupEdges (RemoveEdge s o i j).itemEdges (s.edata e).toItem))
      ∧ EdgeInv (RemoveEdge s o i j) := by
  refine ⟨?_, ?_, ?_, ?_, ?_⟩
  · intro e h
    unfold AddEdge
    rw [h]
  · intro hnone
    unfold AddEdge
    rw [hnone]
    exact addEdgeInternal_mem s o i j
  · cases h : EdgeToUIObject s o i j with
    | some e =>
      unfold AddEdge
      rw [h]
      exact hInv
    | none =>
      unfold AddEdge
      rw [h]
      exact addEdgeInternal_inv s o i j hInv h
  · intro e h
    exact (removeEdge_spec s o i j e hInv h).1
  · cases h : EdgeToUIObject s o i j with
    | some e => exact (removeEdge_spec s o i j e hInv h).2
    | none =>
      unfold RemoveEdge
      rw [h]
      exact hInv

/-- Witness for C5 on a scene holding one registered edge, queried at
that edge's output/input pair. -/
theorem edge_registration_invariant_witness :
    EdgeInv edgeSceneEx
      ∧ ((∀ e, EdgeToUIObject edgeSceneEx 1 2 5 = some e → AddEdge edgeSceneEx 1 2 5 = (e, edgeSceneEx))
          ∧ (EdgeToUIObject edgeSceneEx 1 2 5 = none →
              ((AddEdge edgeSceneEx 1 2 5).1 ∈ (AddEdge edgeSceneEx 1 2 5).2.edges
                ∧ (AddEdge edgeSceneEx 1 2 5).1
                    ∈ lookupEdges (AddEdge edgeSceneEx 1 2 5).2.itemEdges (edgeSceneEx.nodeItem 1)
                ∧ (AddEdge edgeSceneEx 1 2 5).1
                    ∈ lookupEdges (AddEdge edgeSceneEx 1 2 5).2.itemEdges (edgeSceneEx.nodeItem 2)))
          ∧ EdgeInv (AddEdge edgeSceneEx 1 2 5).2
          ∧ (∀ e, EdgeToUIObject edgeSceneEx 1 2 5 = some e →
              (e ∉ (RemoveEdge edgeSceneEx 1 2 5).edges
                ∧ e ∉ lookupEdges (RemoveEdge edgeSceneEx 1 2 5).itemEdges
                    (edgeSceneEx.edata e).fromItem
                ∧ e ∉ lookupEdges (RemoveEdge edgeSceneEx 1 2 5).itemEdges
                    (edgeSceneEx.edata e).toItem))
          ∧ EdgeInv (RemoveEdge edgeSceneEx 1 2 5)) :=
  ⟨by unfold EdgeInv; decide, edge_registration_invariant edgeSceneEx 1 2 5 (by unfold EdgeInv; decide)⟩

/-- Counterexample to C8: on an item whose node has no connectable
inputs, a double click without Control does not toggle the expanded
state. -/
theorem doubleClick_no_inputs_no_toggle :
    ¬((mouseDoubleClick mNone itemNoInputs).expanded = !itemNoInputs.expanded) := by
  decide

/-- C8 (amended).  On an item with at least one connectable input, a
double click without Control toggles the expanded state; a double
click with Control leaves the item unchanged; and each of the press,
move and release handlers forwards its event to the default handler
with the Control and Shift modifiers swapped (and the others kept). -/
theorem mouse_event_spec (it : NVItem) (m : MouseModifiers) :
    (1 ≤ it.nInputs → m.ctrl = false →
        (mouseDoubleClick m it).expanded = !it.expanded)
      ∧ (m.ctrl = true → mouseDoubleClick m it = it)
      ∧ mousePressForward m = ⟨m.shift, m.ctrl, m.alt⟩
      ∧ mouseMoveForward m = ⟨m.shift, m.ctrl, m.alt⟩
      ∧ mouseReleaseForward m = ⟨m.shift, m.ctrl, m.alt⟩ := by
  refine ⟨?_, ?_, rfl, rfl, rfl⟩
  · intro h1 hc
    rw [mouseDoubleClick, if_neg (by simp [hc])]
    have h0 : it.nInputs ≠ 0 := by omega
    cases hE : it.expanded <;> simp [SetExpanded, h0, hE]
  · intro hc
    rw [mouseDoubleClick, if_pos hc]

/-- Witness for C8: double clicks and forwarded modifiers on a
two-input item with Shift and Alt held. -/
theorem mouse_event_spec_witness :
    (1 ≤ itemEx.nInputs → mShiftAlt.ctrl = false →
        (mouseDoubleClick mShiftAlt itemEx).expanded = !itemEx.expanded)
      ∧ (mShiftAlt.ctrl = true → mouseDoubleClick mShiftAlt itemEx = itemEx)
      ∧ mousePressForward mShiftAlt = ⟨mShiftAlt.shift, mShiftAlt.ctrl, mShiftAlt.alt⟩
      ∧ mouseMoveForward mShiftAlt = ⟨mShiftAlt.shift, mShiftAlt.ctrl, mShiftAlt.alt⟩
      ∧ mouseReleaseForward mShiftAlt = ⟨mShiftAlt.shift, mShiftAlt.ctrl, mShiftAlt.alt⟩ :=
  mouse_event_spec itemEx mShiftAlt

/-- C2.  For every flow direction and point, `ScreenToNodePoint` and
`NodeToScreenPoint` are mutually inverse, assuming exact rational
arithmetic and nonzero horizontal and vertical item paddings. -/
theorem nodeScreen_roundtrip (hp vp : FlowDirection → ℚ) (d : FlowDirection)
    (p : QPointF) (hh : hp d ≠ 0) (hv : vp d ≠ 0) :
    ScreenToNodePoint hp vp d (NodeToScreenPoint hp vp d p) = p
      ∧ NodeToScreenPoint hp vp d (ScreenToNodePoint hp vp d p) = p := by
  cases d <;>
    constructor <;>
      · simp only [NodeToScreenPoint, ScreenToNodePoint]
        ext <;> field_simp

/-- Witness for C2: the round trip at direction `kTopToBottom`,
paddings 3 and 2, and the point (5, 7). -/
theorem nodeScreen_roundtrip_witness :
    ScreenToNodePoint (fun _ => 3) (fun _ => 2) .kTopToBottom
        (NodeToScreenPoint (fun _ => 3) (fun _ => 2) .kTopToBottom ⟨5, 7⟩) = ⟨5, 7⟩
      ∧ NodeToScreenPoint (fun _ => 3) (fun _ => 2) .kTopToBottom
        (ScreenToNodePoint (fun _ => 3) (fun _ => 2) .kTopToBottom ⟨5, 7⟩) = ⟨5, 7⟩ :=
  nodeScreen_roundtrip (fun _ => 3) (fun _ => 2) .kTopToBottom ⟨5, 7⟩
    (by norm_num) (by norm_num)

end Olive
